import Mathlib

/-!
Verification development for the linkos message-routing and
streaming-delivery core.

The Python source is shallowly embedded:

* the incremental SSE decoder of `src/linkos/agui/client.py`
  (`AGUIClient._parse_sse_stream` / `_parse_sse_event`);
* the session store of `src/linkos/services/session.py` together with the
  session model of `src/linkos/models/session.py`;
* the message router of `src/linkos/python/src/services/router.py`
  (`MessageRouter.route_message`);
* the streaming reconciler of
  `src/linkos/python/src/clients/telegram.py`
  (`update_telegram_messages`, `on_token`, `_chunk_message`);
* the socket-bridge frame filter of
  `src/linkos/python/src/clients/whatsapp.py`
  (`WhatsAppClient._handle_message`).

Python strings are modelled as `List Char`, `datetime` timestamps as `Nat`
(the claims never inspect concrete times), the standard-library
`json.loads` as an abstract fallible decoder `List Char → Option Json`
(with `none` standing for a raised `JSONDecodeError`), and I/O effects
(sends, edits, logging) as explicit state.
-/

namespace Linkos

/-! ## A model of decoded JSON values

`json.loads` produces Python values; the embedding records the shapes the
code inspects.  Numbers are modelled as integers (the streams at issue
carry only structured events whose numeric fields the code never reads).
-/

inductive Json where
  | null : Json
  | bool (b : Bool) : Json
  | num (n : Int) : Json
  | str (s : String) : Json
  | arr (xs : List Json) : Json
  | obj (fields : List (String × Json)) : Json

/-- Python truthiness (`if event:`) of a decoded JSON value:
`None`, `False`, `0`, `""`, `[]`, `{}` are falsy. -/
def Json.truthy : Json → Bool
  | .null => false
  | .bool b => b
  | .num n => n != 0
  | .str s => s != ""
  | .arr xs => !xs.isEmpty
  | .obj fields => !fields.isEmpty

/-- Python `dict.get(key)` on a decoded JSON object: `none` when the key is
absent or the value is not an object.  Parsed Python dicts have unique
keys, so first-match lookup is faithful. -/
def Json.get : Json → String → Option Json
  | .obj fields, key => (fields.find? (fun p => p.1 == key)).map Prod.snd
  | _, _ => none

/-! ## Incremental SSE decoder (`AGUIClient` in `src/linkos/agui/client.py`) -/

/-- The characters stripped by Python `str.strip()` (ASCII whitespace;
the payloads this decoder meets contain no exotic Unicode spaces). -/
def isPyWhitespace (c : Char) : Bool :=
  c = ' ' || c = '\t' || c = '\n' || c = '\r' || c = '\x0b' || c = '\x0c'

/-- Python `s.strip()`. -/
def pyStrip (l : List Char) : List Char :=
  ((l.dropWhile isPyWhitespace).reverse.dropWhile isPyWhitespace).reverse

/-- Python `s.split("\n")`: always at least one part, empty parts kept. -/
def pySplitLines : List Char → List (List Char)
  | [] => [[]]
  | c :: rest =>
    if c = '\n' then [] :: pySplitLines rest
    else
      match pySplitLines rest with
      | [] => [[c]]
      | x :: xs => (c :: x) :: xs

/-- The test `line.startswith("data:")`. -/
def startsWithData : List Char → Bool
  | 'd' :: 'a' :: 't' :: 'a' :: ':' :: _ => true
  | _ => false

/-- Split a buffer at the first occurrence of the blank-line separator
`"\n\n"`, as `buffer.split("\n\n", 1)` does when `"\n\n" in buffer`;
`none` when the separator does not occur. -/
def splitFirstSep : List Char → Option (List Char × List Char)
  | [] => none
  | [_] => none
  | c1 :: c2 :: rest =>
    if c1 = '\n' ∧ c2 = '\n' then some ([], rest)
    else (splitFirstSep (c2 :: rest)).map (fun p => (c1 :: p.1, p.2))

/-- The `while "\n\n" in buffer:` loop of `_parse_sse_stream`: extract
every complete event block, returning the blocks in order together with
the remaining (separator-free) buffer. -/
def extractBlocks (buffer : List Char) : List (List Char) × List Char :=
  match h : splitFirstSep buffer with
  | none => ([], buffer)
  | some (block, rest) =>
    let r := extractBlocks rest
    (block :: r.1, r.2)
termination_by buffer.length
decreasing_by
  -- the split strips at least the two separator characters
  have key : ∀ (l a b : List Char),
      splitFirstSep l = some (a, b) → b.length < l.length := by
    intro l
    induction l using splitFirstSep.induct with
    | case1 => intro a b h; simp [splitFirstSep] at h
    | case2 => intro a b h; simp [splitFirstSep] at h
    | case3 c1 c2 rest hsep =>
      intro a b h
      simp only [splitFirstSep, if_pos hsep] at h
      cases h
      simp only [List.length_cons]
      omega
    | case4 c1 c2 rest hsep ih =>
      intro a b h
      simp only [splitFirstSep, if_neg hsep, Option.map_eq_some'] at h
      obtain ⟨⟨a1, b1⟩, hp, hq⟩ := h
      cases hq
      have := ih _ _ hp
      simp only [List.length_cons] at this ⊢
      omega
  exact key _ _ _ h

/-- Model of `_parse_sse_event`: scan the block's lines; each `data:`-prefixed
line has its payload decoded, a decode failure returns `None` at once
(the block is dropped), and the last successfully decoded payload wins.
`decode` stands for `json.loads` (`none` = `JSONDecodeError`). -/
def parseSseEventGo (decode : List Char → Option Json) :
    List (List Char) → Option Json → Option Json
  | [], acc => acc
  | line :: rest, acc =>
    if startsWithData line then
      match decode (pyStrip (line.drop 5)) with
      | some j => parseSseEventGo decode rest (some j)
      | none => none
    else parseSseEventGo decode rest acc

def parseSseEvent (decode : List Char → Option Json) (eventText : List Char) :
    Option Json :=
  parseSseEventGo decode (pySplitLines eventText) none

/-- The `if event: yield event` filter applied to one extracted block:
a block contributes an event only when `_parse_sse_event` returns a
truthy value. -/
def eventOfBlock (decode : List Char → Option Json) (block : List Char) :
    Option Json :=
  match parseSseEvent decode block with
  | some e => if e.truthy then some e else none
  | none => none

/-- One iteration of `async for chunk in response.aiter_text()`:
append the chunk to the buffer, then drain every complete block. -/
def feedChunk (decode : List Char → Option Json)
    (st : List Char × List Json) (chunk : List Char) :
    List Char × List Json :=
  let r := extractBlocks (st.1 ++ chunk)
  (r.2, st.2 ++ r.1.filterMap (eventOfBlock decode))

/-- Model of `_parse_sse_stream` over a whole fragment sequence: the list of
decoded events yielded, in order. -/
def parseSseStream (decode : List Char → Option Json)
    (chunks : List (List Char)) : List Json :=
  (chunks.foldl (feedChunk decode) ([], [])).2

/-- A single-data-line event block as the AG-UI agent emits it:
`"data: " + payload`. -/
def dataLine (payload : List Char) : List Char :=
  "data: ".toList ++ payload

/-- A well-formed wire stream: each block one data line, blocks closed
by the blank-line separator. -/
def mkStream (ps : List (List Char)) : List Char :=
  (ps.map (fun p => dataLine p ++ ['\n', '\n'])).flatten

/-! ## Session model and store

From `src/linkos/models/message.py`, `src/linkos/models/session.py` and
`src/linkos/services/session.py`.  `UnifiedMessage` keeps the fields the
routing layer reads; `message_type`, `timestamp`, `metadata` and
`context` are carried by the Python model but never consulted by the
operations under verification.
-/

inductive Platform where
  | whatsapp | telegram | discord | slack
deriving DecidableEq, Repr

/-- The `str`-enum value, as in `platform.value`. -/
def Platform.value : Platform → String
  | .whatsapp => "whatsapp"
  | .telegram => "telegram"
  | .discord => "discord"
  | .slack => "slack"

structure UnifiedMessage where
  id : String
  platform : Platform
  user_id : String
  session_id : String
  content : String
deriving DecidableEq, Repr

/-- One element of `Session.history`: `{id, role, content}`. -/
structure HistoryEntry where
  id : String
  role : String
  content : String
deriving DecidableEq, Repr

inductive SessionState where
  | active | waiting | closed
deriving DecidableEq, Repr

/-- The field `Session.context` is `dict[str, Any]`; the store only ever merges and
returns it whole, so entries are modelled as string pairs kept in
insertion order, like a Python dict. -/
abbrev ContextDict := List (String × String)

/-- Python `dict.__setitem__`: replace in place, or append a new key. -/
def dictSet (d : ContextDict) (k v : String) : ContextDict :=
  match d with
  | [] => [(k, v)]
  | (k', v') :: rest =>
    if k' = k then (k, v) :: rest else (k', v') :: dictSet rest k v

/-- Python `dict.update`: shallow merge, right-hand side wins. -/
def dictMerge (d upd : ContextDict) : ContextDict :=
  upd.foldl (fun acc p => dictSet acc p.1 p.2) d

structure Session where
  session_id : String
  platform : Platform
  user_id : String
  created_at : Nat
  last_active : Nat
  message_history : List String
  history : List HistoryEntry
  context : ContextDict
  state : SessionState
deriving DecidableEq, Repr

/-- The duck-typed argument of `SessionManager.update_session` /
`Session.update_activity`: a raw inbound `UnifiedMessage` (content but
no role), the router's pseudo assistant message (explicit id, role,
content), or a bare string id. -/
inductive MsgLike where
  | unified (m : UnifiedMessage)
  | pseudo (id role content : String)
  | plain (s : String)

/-- Python `getattr(message, "id", str(message))`. -/
def MsgLike.messageId : MsgLike → String
  | .unified m => m.id
  | .pseudo id _ _ => id
  | .plain s => s

/-- Model of `Session.update_activity`: bump `last_active`, append the id to
`message_history`, and append a history entry — role taken from the
message when it has one, else `"user"` for a raw inbound message; a
bare string id contributes no history entry. -/
def Session.update_activity (s : Session) (now : Nat) (msg : MsgLike) : Session :=
  let s := { s with last_active := now,
                    message_history := s.message_history ++ [msg.messageId] }
  match msg with
  | .pseudo id role content => { s with history := s.history ++ [⟨id, role, content⟩] }
  | .unified m => { s with history := s.history ++ [⟨m.id, "user", m.content⟩] }
  | .plain _ => s

/-- The `SessionManager._sessions` dict, as an insertion-ordered
association list. -/
abbrev Store := List (String × Session)

def storeLookup (st : Store) (k : String) : Option Session :=
  match st with
  | [] => none
  | (k', v) :: rest => if k' = k then some v else storeLookup rest k

def storeSet (st : Store) (k : String) (v : Session) : Store :=
  match st with
  | [] => [(k, v)]
  | (k', v') :: rest =>
    if k' = k then (k, v) :: rest else (k', v') :: storeSet rest k v

/-- Model of `SessionManager.get_or_create_session`.  `now` models
`datetime.utcnow()`.  In Python the hit branch mutates the stored object
in place and returns it; here the bumped record is both returned and
written back, so "returned = stored" is a provable equation. -/
def get_or_create_session (st : Store) (platform : Platform) (user_id : String)
    (now : Nat) (initial_context : ContextDict) : Session × Store :=
  let session_id := platform.value ++ ":" ++ user_id
  match storeLookup st session_id with
  | some s =>
    let s := { s with last_active := now }
    (s, storeSet st session_id s)
  | none =>
    let s : Session :=
      { session_id := session_id, platform := platform, user_id := user_id,
        created_at := now, last_active := now, message_history := [],
        history := [], context := initial_context, state := .active }
    (s, storeSet st session_id s)

/-- Model of `SessionManager.update_session`: a no-op when the id is unknown. -/
def update_session (st : Store) (session_id : String) (msg : MsgLike)
    (now : Nat) : Store :=
  match storeLookup st session_id with
  | some s => storeSet st session_id (s.update_activity now msg)
  | none => st

/-- Model of `SessionManager.get_session_context`: `{}` when the id is unknown. -/
def get_session_context (st : Store) (session_id : String) : ContextDict :=
  match storeLookup st session_id with
  | some s => s.context
  | none => []

/-- Model of `SessionManager.update_session_context`: shallow-merge, no-op when
the id is unknown. -/
def update_session_context (st : Store) (session_id : String)
    (ctx : ContextDict) : Store :=
  match storeLookup st session_id with
  | some s => storeSet st session_id { s with context := dictMerge s.context ctx }
  | none => st

/-! ## Router (`MessageRouter.route_message` in
`src/linkos/python/src/services/router.py`) -/

/-- The capability shapes probed by the `if/elif` chain of
`route_message`, in source order. -/
inductive AgentCapability where
  | nativeStreamingRun   -- hasattr(agent, 'graph') and hasattr(agent.graph, 'astream_events')
  | protocolRun          -- hasattr(agent, 'run') and callable(agent.run)
  | simpleProcess        -- hasattr(agent, 'process_message')
  | callableAgent        -- callable(agent)
deriving DecidableEq, Repr

/-- What capability probing can observe about a backend object. -/
structure BackendShape where
  hasGraphAstreamEvents : Bool
  hasCallableRun : Bool
  hasProcessMessage : Bool
  isCallable : Bool
deriving DecidableEq, Repr

/-- The dispatch branch `route_message` selects, following the textual
`if/elif` order; `none` models the `raise AttributeError` branch for a
backend with no supported interface. -/
def selectCapability (b : BackendShape) : Option AgentCapability :=
  if b.hasGraphAstreamEvents then some .nativeStreamingRun
  else if b.hasCallableRun then some .protocolRun
  else if b.hasProcessMessage then some .simpleProcess
  else if b.isCallable then some .callableAgent
  else none

/-- The error marker tested by
`response.startswith("\u274c Error:")` (`str.startswith` is character
prefix). -/
def isErrorMarked (r : String) : Bool :=
  "\u274c Error:".toList.isPrefixOf r.toList

/-- Model of `MessageRouter.route_message`.

`dispatch` abstracts the selected backend branch as a function of the
history visible when it is invoked (`session.history`, which by then
contains the inbound entry): `Except.error e` models an exception with
text `str(e) = e` caught by the router, `Except.ok r` a returned
response string.  `now` models the wall clock and `newId` the
`uuid.uuid4()` drawn for the pseudo assistant message. -/
def route_message (st : Store) (message : UnifiedMessage) (now : Nat)
    (newId : String)
    (dispatch : List HistoryEntry → Except String String) :
    Store × String :=
  let r := get_or_create_session st message.platform message.user_id now []
  let session := r.1
  let st1 := update_session r.2 session.session_id (.unified message) now
  let hist := match storeLookup st1 session.session_id with
    | some s => s.history
    | none => []
  match dispatch hist with
  | .error e => (st1, "\u274c Error: " ++ e)
  | .ok response =>
    if response ≠ "" ∧ ¬ isErrorMarked response then
      (update_session st1 session.session_id (.pseudo newId "assistant" response) now,
       response)
    else (st1, response)

/-! ## Streaming reconciler
(`TelegramClient._handle_message` in
`src/linkos/python/src/clients/telegram.py`)

Message text is `List Char`; the `sent` list holds, per platform
message created this turn, the text it currently displays (its
`Message.text`, i.e. the content last sent or successfully edited).
-/

/-- The constant `MESSAGE_CHUNK_SIZE` (the Telegram limit is 4096). -/
def MESSAGE_CHUNK_SIZE : Nat := 4000

/-- Model of `TelegramClient._chunk_message`:
`[text[i:i+size] for i in range(0, len(text), size)]` — the slice
`text[i:i+size]` is `(text.drop i).take size`, and
`range(0, len(text), size)` is `List.range'` with `⌈len/size⌉` steps of
`size`.  (`range` with step `0` raises in Python; the theorems only
instantiate positive sizes.) -/
def chunkMessage (size : Nat) (text : List Char) : List (List Char) :=
  (List.range' 0 ((text.length + size - 1) / size) size).map
    (fun i => (text.drop i).take size)

/-- The per-turn streaming state: the accumulated `full_response` and
the texts currently shown by `sent_messages`. -/
structure RState where
  full : List Char
  sent : List (List Char)
deriving DecidableEq, Repr

/-- The `while len(sent_messages) < len(chunks)` send loop: each
iteration replies with `chunks[len(sent_messages)]` and records the
handle.  (The `if not content: continue` guard never fires because
`_chunk_message` produces no empty chunk — see
`chunkMessage_ne_nil_mem`.) -/
def sendNewChunks (chunks sent : List (List Char)) : List (List Char) :=
  sent ++ chunks.drop sent.length

/-- The trailing edit: rewrite the last handle to
`chunks[len(sent) - 1]` when it differs (an edit to an equal text is a
no-op, so the conditional is dropped without loss). -/
def editLast (chunks sent : List (List Char)) : List (List Char) :=
  match sent with
  | [] => []
  | _ => sent.set (sent.length - 1) (chunks.getD (sent.length - 1) [])

/-- Model of `update_telegram_messages`: re-chunk `full_response` from the
start, send a message for every chunk index beyond the handles on
record, then edit the last handle. -/
def updateTelegramMessages (size : Nat) (st : RState) : RState :=
  let chunks := chunkMessage size st.full
  let sent1 := sendNewChunks chunks st.sent
  { st with sent := editLast chunks sent1 }

/-- Model of `on_token`: absorb the delta into `full_response`; flush only when
the rate-limit interval has elapsed (`flushNow` records that timing
outcome — the deltas' arrival times are external). -/
def onToken (size : Nat) (st : RState) (tok : List Char) (flushNow : Bool) :
    RState :=
  let st1 := { st with full := st.full ++ tok }
  if flushNow then updateTelegramMessages size st1 else st1

/-- One whole turn of `_handle_message` streaming: feed every delta
(with its rate-limit outcome), then set `full_response` to the text
returned by the router and run the forced unconditional flush. -/
def runTurn (size : Nat) (deltas : List (List Char × Bool))
    (finalText : List Char) : RState :=
  let st := deltas.foldl (fun s d => onToken size s d.1 d.2) ⟨[], []⟩
  updateTelegramMessages size { st with full := finalText }

/-! ## Socket-bridge frame handling
(`WhatsAppClient._handle_message` in
`src/linkos/python/src/clients/whatsapp.py`) -/

/-- The Python comparison `data.get("type") != "message"`, negated: a
decoded value equals the string `"message"` exactly when it is that
string. -/
def isMessageType : Option Json → Bool
  | some (.str s) => s == "message"
  | _ => false

/-- Python `data.get(key, default)` restricted to string-valued fields, as the
`UnifiedMessage` model (pydantic) accepts only `str` here; a frame whose
field decodes to a non-string fails model validation, and the handler's
blanket `except` swallows that, i.e. the frame is ignored. -/
def Json.getStr (j : Json) (key : String) : Option String :=
  match j.get key with
  | some (.str s) => some s
  | _ => none

/-- Model of `WhatsAppClient._handle_message` up to the routing call: `none`
means the frame is ignored (no `UnifiedMessage` is built, the router is
not invoked).  `decode` stands for `json.loads`; a decode failure is
swallowed (`except json.JSONDecodeError: pass`), `.get` on a non-dict
value raises and is swallowed by the blanket `except`. -/
def handleBridgeFrame (decode : List Char → Option Json) (raw : List Char) :
    Option UnifiedMessage :=
  match decode raw with
  | none => none
  | some data =>
    match data with
    | .obj _ =>
      if !isMessageType (data.get "type") then none
      else
        match data.getStr "from", data.getStr "content" with
        | some user_id, some text =>
          if user_id = "" ∨ text = "" then none  -- `if not user_id or not text`
          else
            let msg_id := (data.getStr "id").getD "unknown"
            some { id := "wa_" ++ msg_id, platform := .whatsapp,
                   user_id := user_id,
                   session_id := "whatsapp:" ++ user_id, content := text }
        | _, _ => none
    | _ => none

/-- The handler including the routing step: an ignored frame leaves the
session store untouched and produces no response. -/
def whatsappHandleRaw (decode : List Char → Option Json) (st : Store)
    (raw : List Char) (now : Nat) (newId : String)
    (dispatch : List HistoryEntry → Except String String) :
    Store × Option String :=
  match handleBridgeFrame decode raw with
  | none => (st, none)
  | some m =>
    let r := route_message st m now newId dispatch
    (r.1, some r.2)

/-- The session key `f"{platform.value}:{user_id}"` derived from a
message by `get_or_create_session`. -/
def sessionKey (message : UnifiedMessage) : String :=
  message.platform.value ++ ":" ++ message.user_id

/-- The history entry `update_activity` appends for a raw inbound
message. -/
def userEntry (message : UnifiedMessage) : HistoryEntry :=
  ⟨message.id, "user", message.content⟩

/-- The `history` list stored under a session id (`[]` when absent). -/
def historyAt (st : Store) (sid : String) : List HistoryEntry :=
  match storeLookup st sid with
  | some s => s.history
  | none => []

/-! ### Chunk-boundary invariance of the decoder -/

theorem splitFirstSep_append_some {s t a b : List Char}
    (h : splitFirstSep s = some (a, b)) :
    splitFirstSep (s ++ t) = some (a, b ++ t) := by
  induction s using splitFirstSep.induct generalizing a b with
  | case1 => simp [splitFirstSep] at h
  | case2 => simp [splitFirstSep] at h
  | case3 c1 c2 rest hsep =>
    simp only [splitFirstSep, if_pos hsep] at h
    cases h
    simp [splitFirstSep, if_pos hsep]
  | case4 c1 c2 rest hsep ih =>
    simp only [splitFirstSep, if_neg hsep, Option.map_eq_some'] at h
    obtain ⟨⟨a', b'⟩, hp, hq⟩ := h
    cases hq
    have h2 := ih hp
    simp only [List.cons_append] at h2 ⊢
    simp only [splitFirstSep, if_neg hsep, h2]
    rfl

theorem extractBlocks_of_none {buffer : List Char}
    (h : splitFirstSep buffer = none) :
    extractBlocks buffer = ([], buffer) := by
  rw [extractBlocks]
  split <;> simp_all

theorem extractBlocks_of_some {buffer block rest : List Char}
    (h : splitFirstSep buffer = some (block, rest)) :
    extractBlocks buffer
      = (block :: (extractBlocks rest).1, (extractBlocks rest).2) := by
  rw [extractBlocks]
  split <;> simp_all

/-- The buffer left over after draining complete blocks never contains
the separator. -/
theorem splitFirstSep_extract_snd (buffer : List Char) :
    splitFirstSep (extractBlocks buffer).2 = none := by
  induction buffer using extractBlocks.induct with
  | case1 b h => rw [extractBlocks_of_none h]; exact h
  | case2 b block rest h ih => rw [extractBlocks_of_some h]; exact ih

theorem extractBlocks_append (s t : List Char) :
    extractBlocks (s ++ t)
      = ((extractBlocks s).1 ++ (extractBlocks ((extractBlocks s).2 ++ t)).1,
         (extractBlocks ((extractBlocks s).2 ++ t)).2) := by
  induction s using extractBlocks.induct with
  | case1 s h =>
    rw [extractBlocks_of_none h]
    simp
  | case2 s block rest h ih =>
    rw [extractBlocks_of_some h,
      extractBlocks_of_some (splitFirstSep_append_some h), ih]
    simp

theorem feedChunk_foldl (decode : List Char → Option Json) :
    ∀ (chunks : List (List Char)) (buf : List Char) (evs : List Json),
      splitFirstSep buf = none →
      List.foldl (feedChunk decode) (buf, evs) chunks
        = ((extractBlocks (buf ++ chunks.flatten)).2,
           evs ++ ((extractBlocks (buf ++ chunks.flatten)).1).filterMap
             (eventOfBlock decode)) := by
  intro chunks
  induction chunks with
  | nil =>
    intro buf evs hbuf
    simp [extractBlocks_of_none hbuf]
  | cons c cs ih =>
    intro buf evs hbuf
    have hrem := splitFirstSep_extract_snd (buf ++ c)
    simp only [List.foldl_cons]
    rw [show feedChunk decode (buf, evs) c
        = ((extractBlocks (buf ++ c)).2,
           evs ++ ((extractBlocks (buf ++ c)).1).filterMap
             (eventOfBlock decode)) from rfl,
      ih _ _ hrem]
    have hsplit := extractBlocks_append (buf ++ c) (cs.flatten)
    rw [List.flatten_cons, ← List.append_assoc, hsplit]
    simp

/-- Claim C4: for every event-stream character sequence and every way
of splitting it into fragments, feeding the fragments one at a time to
the incremental decoder yields exactly the same sequence of decoded
events as feeding the whole sequence in a single fragment — in
particular one event's bytes split at any boundary across two calls
decode identically. -/
theorem parseSseStream_join (decode : List Char → Option Json)
    (chunks : List (List Char)) :
    parseSseStream decode chunks = parseSseStream decode [chunks.flatten] := by
  unfold parseSseStream
  rw [feedChunk_foldl decode chunks [] [] rfl,
    feedChunk_foldl decode [chunks.flatten] [] [] rfl]
  simp

/-! ## Store lemmas -/

theorem storeLookup_set_self (st : Store) (k : String) (v : Session) :
    storeLookup (storeSet st k v) k = some v := by
  induction st with
  | nil => simp [storeSet, storeLookup]
  | cons p rest ih =>
    by_cases h : p.1 = k
    · simp [storeSet, storeLookup, h]
    · simp [storeSet, storeLookup, h, ih]

/-! ## Claim theorems: session store -/

/-- Claim C8: `get_or_create_session` on a fresh `(platform, user)` pair
creates a session whose id is `"<platform>:<user>"` and stores exactly
the record it returns; a second call for the same pair returns that same
underlying record with only `last_active` bumped, and again the returned
record is the stored one (the value-level rendering of Python object
identity). -/
theorem get_or_create_session_twice (st : Store) (p : Platform) (u : String)
    (ictx : ContextDict) (t1 t2 : Nat)
    (hfresh : storeLookup st (p.value ++ ":" ++ u) = none) :
    (get_or_create_session st p u t1 ictx).1.session_id = p.value ++ ":" ++ u ∧
    storeLookup (get_or_create_session st p u t1 ictx).2
        (p.value ++ ":" ++ u) = some (get_or_create_session st p u t1 ictx).1 ∧
    (get_or_create_session (get_or_create_session st p u t1 ictx).2 p u t2 ictx).1
      = { (get_or_create_session st p u t1 ictx).1 with last_active := t2 } ∧
    storeLookup
        (get_or_create_session (get_or_create_session st p u t1 ictx).2 p u t2 ictx).2
        (p.value ++ ":" ++ u)
      = some (get_or_create_session (get_or_create_session st p u t1 ictx).2 p u t2 ictx).1 := by
  simp only [get_or_create_session, hfresh, storeLookup_set_self]
  trivial

/-- Witness for C8 at a concrete input. -/
theorem get_or_create_session_twice_witness :
    storeLookup ([] : Store) (Platform.telegram.value ++ ":" ++ "42") = none ∧
    (get_or_create_session [] .telegram "42" 5 []).1.session_id
      = Platform.telegram.value ++ ":" ++ "42" := by
  refine ⟨rfl, ?_⟩
  exact (get_or_create_session_twice [] .telegram "42" [] 5 9 rfl).1

/-- Claim C10: on a session id absent from the store, `update_session`
and `update_session_context` return leaving the store unchanged (in
particular they create nothing), and `get_session_context` returns the
empty dict.  All three are total functions of the model by
construction, mirroring the guarded Python bodies that cannot raise. -/
theorem session_ops_unknown_id (st : Store) (sid : String) (msg : MsgLike)
    (now : Nat) (ctx : ContextDict)
    (h : storeLookup st sid = none) :
    update_session st sid msg now = st ∧
    get_session_context st sid = [] ∧
    update_session_context st sid ctx = st := by
  unfold update_session get_session_context update_session_context
  rw [h]
  exact ⟨rfl, rfl, rfl⟩

/-- Witness for C10 at a concrete input. -/
theorem session_ops_unknown_id_witness :
    storeLookup ([] : Store) "telegram:7" = none ∧
    (update_session [] "telegram:7" (.plain "m") 3 = [] ∧
     get_session_context [] "telegram:7" = [] ∧
     update_session_context [] "telegram:7" [("k", "v")] = []) :=
  ⟨rfl, session_ops_unknown_id [] "telegram:7" (.plain "m") 3 [("k", "v")] rfl⟩

/-! ## Claim theorems: dispatch precedence -/

/-- Claim C7: the capability shape is chosen by the textual `if/elif`
order — NativeStreamingRun, then ProtocolRun, then SimpleProcess, then
Callable — so a backend exposing a native streaming graph is always
dispatched through it, whatever else it exposes; the order is a fixed
property of the code, not of reflection enumeration. -/
theorem dispatch_precedence (b : BackendShape) :
    (b.hasGraphAstreamEvents = true →
      selectCapability b = some .nativeStreamingRun) ∧
    (b.hasGraphAstreamEvents = false → b.hasCallableRun = true →
      selectCapability b = some .protocolRun) ∧
    (b.hasGraphAstreamEvents = false → b.hasCallableRun = false →
      b.hasProcessMessage = true → selectCapability b = some .simpleProcess) ∧
    (b.hasGraphAstreamEvents = false → b.hasCallableRun = false →
      b.hasProcessMessage = false → b.isCallable = true →
      selectCapability b = some .callableAgent) ∧
    (b.hasGraphAstreamEvents = false → b.hasCallableRun = false →
      b.hasProcessMessage = false → b.isCallable = false →
      selectCapability b = none) := by
  unfold selectCapability
  refine ⟨fun h1 => ?_, fun h1 h2 => ?_, fun h1 h2 h3 => ?_,
    fun h1 h2 h3 h4 => ?_, fun h1 h2 h3 h4 => ?_⟩ <;>
    simp [h1] <;> simp_all

/-- Witness for C7: a backend exposing every shape, including both
NativeStreamingRun and ProtocolRun, is dispatched via
NativeStreamingRun. -/
theorem dispatch_precedence_witness :
    selectCapability ⟨true, true, true, true⟩ = some .nativeStreamingRun :=
  (dispatch_precedence ⟨true, true, true, true⟩).1 rfl

/-! ## Claim theorems: bridge frame filtering -/

/-- Claim C9: an inbound bridge frame whose decoded `type` field is not
the string `"message"` is ignored: no `UnifiedMessage` is built, the
router is never invoked, and the session store is returned untouched. -/
theorem bridge_frame_filtered (decode : List Char → Option Json)
    (raw : List Char) (d : Json) (st : Store) (now : Nat) (newId : String)
    (dispatch : List HistoryEntry → Except String String)
    (hdec : decode raw = some d)
    (htype : isMessageType (d.get "type") = false) :
    handleBridgeFrame decode raw = none ∧
    whatsappHandleRaw decode st raw now newId dispatch = (st, none) := by
  have hframe : handleBridgeFrame decode raw = none := by
    unfold handleBridgeFrame
    rw [hdec]
    cases d with
    | obj fields => simp [htype]
    | null => rfl
    | bool b => rfl
    | num n => rfl
    | str s => rfl
    | arr xs => rfl
  refine ⟨hframe, ?_⟩
  unfold whatsappHandleRaw
  rw [hframe]

/-- Witness for C9: a `status`-typed frame is dropped. -/
theorem bridge_frame_filtered_witness :
    handleBridgeFrame (fun _ => some (.obj [("type", .str "status")])) [] = none ∧
    whatsappHandleRaw (fun _ => some (.obj [("type", .str "status")])) [] []
        0 "aid" (fun _ => .ok "r") = ([], none) :=
  bridge_frame_filtered (fun _ => some (.obj [("type", .str "status")])) []
    (.obj [("type", .str "status")]) [] 0 "aid" (fun _ => .ok "r") rfl rfl

/-! ## Router lemmas and claim theorems -/

theorem isErrorMarked_marker_append (e : String) :
    isErrorMarked ("❌ Error: " ++ e) = true := by
  unfold isErrorMarked
  have hsplit : ("❌ Error: " ++ e).toList
      = "❌ Error:".toList ++ (' ' :: e.toList) := by
    rw [show ("❌ Error: " ++ e).toList = "❌ Error: ".toList ++ e.toList
      from String.data_append ..]
    rfl
  rw [hsplit]
  exact List.isPrefixOf_iff_prefix.mpr (List.prefix_append _ _)

/-- Full behaviour of `route_message` on the session keyed by the
inbound message: the user entry is appended first, the dispatch callback
observes the history already containing it, the assistant entry is
appended exactly for a non-empty response that does not carry the exact
error marker, and a raised error comes back marker-prefixed.  `hwf`
records the store invariant (maintained by every public operation) that
a stored session's `session_id` equals its key. -/
theorem route_message_spec (st : Store) (message : UnifiedMessage) (now : Nat)
    (newId : String) (dispatch : List HistoryEntry → Except String String)
    (hwf : ∀ s, storeLookup st (sessionKey message) = some s →
      s.session_id = sessionKey message) :
    historyAt (route_message st message now newId dispatch).1 (sessionKey message)
      = historyAt st (sessionKey message) ++ userEntry message ::
          (match dispatch (historyAt st (sessionKey message) ++ [userEntry message]) with
           | .ok resp =>
             if resp ≠ "" ∧ ¬ isErrorMarked resp then [⟨newId, "assistant", resp⟩]
             else []
           | .error _ => []) ∧
    (route_message st message now newId dispatch).2
      = (match dispatch (historyAt st (sessionKey message) ++ [userEntry message]) with
         | .ok resp => resp
         | .error e => "❌ Error: " ++ e) := by
  cases hlk : storeLookup st (sessionKey message) with
  | none =>
    have hlk' : storeLookup st (message.platform.value ++ ":" ++ message.user_id) = none := hlk
    simp only [route_message, get_or_create_session, hlk', update_session,
      storeLookup_set_self, Session.update_activity, MsgLike.messageId,
      historyAt, sessionKey, userEntry, hlk, List.nil_append]
    cases hd : dispatch [⟨message.id, "user", message.content⟩] with
    | ok resp =>
      simp only [hd]
      split_ifs with hcond <;> simp [hd, hcond, userEntry, storeLookup_set_self]
    | error e => simp [hd, storeLookup_set_self]
  | some s =>
    have hsid : s.session_id = sessionKey message := hwf s hlk
    have hlk' : storeLookup st (message.platform.value ++ ":" ++ message.user_id)
        = some s := hlk
    simp only [route_message, get_or_create_session, hlk', update_session,
      hsid, sessionKey, storeLookup_set_self, Session.update_activity,
      MsgLike.messageId, historyAt, hlk]
    cases hd : dispatch (s.history ++ [⟨message.id, "user", message.content⟩]) with
    | ok resp =>
      simp only [hd]
      split_ifs with hcond
      · simp [hd, hcond, userEntry, storeLookup_set_self, List.append_assoc]
      · simp [hd, hcond, userEntry, storeLookup_set_self]
        tauto
    | error e => simp [hd, userEntry, storeLookup_set_self]

/-- Claim C2 (amended): the user entry is appended before dispatch runs
— dispatch observes the history already ending in it; a dispatch that
succeeds with a non-empty response not carrying the error marker appends
exactly the user entry followed by one assistant entry holding the
returned text, in that order; a dispatch that fails — or that succeeds
with an empty or error-marked response — appends the user entry alone. -/
theorem route_history_appends (st : Store) (message : UnifiedMessage)
    (now : Nat) (newId : String)
    (dispatch : List HistoryEntry → Except String String)
    (hwf : ∀ s, storeLookup st (sessionKey message) = some s →
      s.session_id = sessionKey message) :
    (∀ resp,
      dispatch (historyAt st (sessionKey message) ++ [userEntry message])
          = .ok resp →
      resp ≠ "" → isErrorMarked resp = false →
      historyAt (route_message st message now newId dispatch).1
          (sessionKey message)
        = historyAt st (sessionKey message)
            ++ [userEntry message, ⟨newId, "assistant", resp⟩]) ∧
    (∀ resp,
      dispatch (historyAt st (sessionKey message) ++ [userEntry message])
          = .ok resp →
      resp = "" ∨ isErrorMarked resp = true →
      historyAt (route_message st message now newId dispatch).1
          (sessionKey message)
        = historyAt st (sessionKey message) ++ [userEntry message]) ∧
    (∀ e,
      dispatch (historyAt st (sessionKey message) ++ [userEntry message])
          = .error e →
      historyAt (route_message st message now newId dispatch).1
          (sessionKey message)
        = historyAt st (sessionKey message) ++ [userEntry message]) := by
  obtain ⟨h1, _h2⟩ := route_message_spec st message now newId dispatch hwf
  refine ⟨fun resp hd hne hmark => ?_, fun resp hd hcases => ?_,
    fun e hd => ?_⟩
  · rw [h1, hd]
    simp [hne, hmark]
  · rw [h1, hd]
    rcases hcases with hc | hc <;> simp [hc]
  · rw [h1, hd]

/-- Witness for the amended C2 at a concrete input. -/
theorem route_history_appends_witness :
    historyAt (route_message [] ⟨"m1", .whatsapp, "u", "whatsapp:u", "hi"⟩
        0 "aid" (fun _ => .ok "pong")).1
        (sessionKey ⟨"m1", .whatsapp, "u", "whatsapp:u", "hi"⟩)
      = historyAt ([] : Store)
          (sessionKey ⟨"m1", .whatsapp, "u", "whatsapp:u", "hi"⟩)
        ++ [userEntry ⟨"m1", .whatsapp, "u", "whatsapp:u", "hi"⟩,
            ⟨"aid", "assistant", "pong"⟩] :=
  (route_history_appends [] ⟨"m1", .whatsapp, "u", "whatsapp:u", "hi"⟩
      0 "aid" (fun _ => .ok "pong") (fun _ h => nomatch h)).1
    "pong" rfl (by decide) rfl

/-- Claim C2 (counterexample): a dispatch that succeeds with the empty
string — e.g. a callable backend returning `""` — appends no assistant
entry: the history gains exactly one entry, not two. -/
theorem route_empty_ok_no_assistant_cex :
    (route_message [] ⟨"m1", .whatsapp, "u", "whatsapp:u", "hi"⟩ 0 "aid"
        (fun _ => .ok "")).2 = "" ∧
    historyAt (route_message [] ⟨"m1", .whatsapp, "u", "whatsapp:u", "hi"⟩
        0 "aid" (fun _ => .ok "")).1 "whatsapp:u"
      = [⟨"m1", "user", "hi"⟩] := by
  exact ⟨rfl, rfl⟩

/-- Claim C3 (amended): a dispatch exception is converted to the
marker-prefixed string `"❌ Error: " ++ e`, returned to the caller, and
excluded from history; more generally any result the router sees as
error-marked — prefixed by exactly `"❌ Error:"` — is never recorded as
an assistant entry.  (Error strings produced without an exception whose
prefix differs, such as the AG-UI client's
`"❌ Error communicating with agent: ..."`, do not match the marker and
are recorded; see the counterexample.) -/
theorem route_error_marked_never_recorded (st : Store)
    (message : UnifiedMessage) (now : Nat) (newId : String)
    (dispatch : List HistoryEntry → Except String String)
    (hwf : ∀ s, storeLookup st (sessionKey message) = some s →
      s.session_id = sessionKey message) :
    (∀ e,
      dispatch (historyAt st (sessionKey message) ++ [userEntry message])
          = .error e →
      (route_message st message now newId dispatch).2 = "❌ Error: " ++ e ∧
      historyAt (route_message st message now newId dispatch).1
          (sessionKey message)
        = historyAt st (sessionKey message) ++ [userEntry message]) ∧
    (isErrorMarked (route_message st message now newId dispatch).2 = true →
      historyAt (route_message st message now newId dispatch).1
          (sessionKey message)
        = historyAt st (sessionKey message) ++ [userEntry message]) := by
  obtain ⟨h1, h2⟩ := route_message_spec st message now newId dispatch hwf
  constructor
  · intro e hd
    rw [h1, h2, hd]
    simp
  · intro hmark
    rw [h2] at hmark
    rw [h1]
    cases hd : dispatch (historyAt st (sessionKey message)
        ++ [userEntry message]) with
    | ok resp =>
      rw [hd] at hmark
      simp [hmark]
    | error e => simp

/-- Witness for the amended C3 at a concrete input. -/
theorem route_error_marked_never_recorded_witness :
    (route_message [] ⟨"m1", .whatsapp, "u", "whatsapp:u", "hi"⟩ 0 "aid"
        (fun _ => .error "boom")).2 = "❌ Error: " ++ "boom" ∧
    historyAt (route_message [] ⟨"m1", .whatsapp, "u", "whatsapp:u", "hi"⟩
        0 "aid" (fun _ => .error "boom")).1
        (sessionKey ⟨"m1", .whatsapp, "u", "whatsapp:u", "hi"⟩)
      = historyAt ([] : Store)
          (sessionKey ⟨"m1", .whatsapp, "u", "whatsapp:u", "hi"⟩)
        ++ [userEntry ⟨"m1", .whatsapp, "u", "whatsapp:u", "hi"⟩] :=
  (route_error_marked_never_recorded []
      ⟨"m1", .whatsapp, "u", "whatsapp:u", "hi"⟩ 0 "aid"
      (fun _ => .error "boom") (fun _ h => nomatch h)).1 "boom" rfl

/-- Claim C3 (counterexample): the AG-UI HTTP client's exception path
returns `"❌ Error communicating with agent: ..."` — which does not
start with the router's marker `"❌ Error:"` — so the router records it
in history as an assistant entry. -/
theorem route_agui_error_recorded_cex :
    isErrorMarked "❌ Error communicating with agent: boom" = false ∧
    historyAt (route_message [] ⟨"m1", .whatsapp, "u", "whatsapp:u", "hi"⟩
        0 "aid"
        (fun _ => .ok "❌ Error communicating with agent: boom")).1
        "whatsapp:u"
      = [⟨"m1", "user", "hi"⟩,
         ⟨"aid", "assistant", "❌ Error communicating with agent: boom"⟩] := by
  exact ⟨rfl, rfl⟩

/-! ## Fault isolation of the decoder -/

theorem pySplitLines_no_nl {l : List Char} (h : '\n' ∉ l) :
    pySplitLines l = [l] := by
  induction l with
  | nil => rfl
  | cons c rest ih =>
    have hc : ¬ c = '\n' := fun hcc => h (by simp [hcc])
    have hrest : '\n' ∉ rest := fun hm => h (List.mem_cons_of_mem _ hm)
    simp [pySplitLines, hc, ih hrest]

theorem pyStrip_cons_ws {c : Char} {l : List Char}
    (hc : isPyWhitespace c = true) :
    pyStrip (c :: l) = pyStrip l := by
  simp [pyStrip, List.dropWhile_cons, hc]

theorem parseSseEvent_dataLine (decode : List Char → Option Json)
    {p : List Char} (h : '\n' ∉ p) :
    parseSseEvent decode (dataLine p) = decode (pyStrip p) := by
  have hform : dataLine p = 'd' :: 'a' :: 't' :: 'a' :: ':' :: ' ' :: p := rfl
  have hnl : '\n' ∉ dataLine p := by
    rw [hform]
    simp only [List.mem_cons]
    push_neg
    refine ⟨by decide, by decide, by decide, by decide, by decide, by decide, h⟩
  rw [parseSseEvent, pySplitLines_no_nl hnl, hform]
  show (if startsWithData ('d' :: 'a' :: 't' :: 'a' :: ':' :: ' ' :: p) then _
    else _) = _
  rw [show startsWithData ('d' :: 'a' :: 't' :: 'a' :: ':' :: ' ' :: p) = true
    from rfl, if_pos rfl]
  show (match decode (pyStrip (' ' :: p)) with
    | some j => parseSseEventGo decode [] (some j)
    | none => none) = decode (pyStrip p)
  rw [pyStrip_cons_ws (by decide)]
  cases decode (pyStrip p) <;> rfl

theorem splitFirstSep_no_nl {l : List Char} (r : List Char)
    (h : '\n' ∉ l) :
    splitFirstSep (l ++ '\n' :: '\n' :: r) = some (l, r) := by
  induction l with
  | nil => simp [splitFirstSep]
  | cons c rest ih =>
    have hc : ¬ c = '\n' := fun hcc => h (by simp [hcc])
    have hrest : '\n' ∉ rest := fun hm => h (List.mem_cons_of_mem _ hm)
    cases rest with
    | nil =>
      simp [splitFirstSep, hc]
    | cons c2 rest2 =>
      have := ih hrest
      simp only [List.cons_append] at this ⊢
      rw [splitFirstSep]
      simp [hc, this]

theorem extractBlocks_mkStream (ps : List (List Char))
    (h : ∀ p ∈ ps, '\n' ∉ p) :
    extractBlocks (mkStream ps) = (ps.map dataLine, []) := by
  induction ps with
  | nil => exact extractBlocks_of_none rfl
  | cons p rest ih =>
    have hp : '\n' ∉ dataLine p := by
      have h1 : '\n' ∉ p := h p (List.mem_cons_self ..)
      intro hm
      rw [show dataLine p = 'd' :: 'a' :: 't' :: 'a' :: ':' :: ' ' :: p
        from rfl] at hm
      simp only [List.mem_cons] at hm
      rcases hm with h' | h' | h' | h' | h' | h' | h' <;>
        first
        | exact absurd h' (by decide)
        | exact h1 h'
    have hstream : mkStream (p :: rest)
        = dataLine p ++ '\n' :: '\n' :: mkStream rest := by
      simp [mkStream, List.append_assoc]
    rw [hstream, extractBlocks_of_some (splitFirstSep_no_nl _ hp),
      ih (fun q hq => h q (List.mem_cons_of_mem _ hq))]
    simp

/-- The stream evaluated block by block: each payload contributes its
decoded value when decoding succeeds and the value is truthy, and
nothing otherwise. -/
theorem sse_events_of_payloads (decode : List Char → Option Json)
    (ps : List (List Char)) (h : ∀ p ∈ ps, '\n' ∉ p) :
    parseSseStream decode [mkStream ps]
      = ps.filterMap (fun p =>
          match decode (pyStrip p) with
          | some e => if e.truthy then some e else none
          | none => none) := by
  unfold parseSseStream
  simp only [List.foldl_cons, List.foldl_nil, feedChunk, List.nil_append]
  rw [extractBlocks_mkStream ps h]
  simp only [List.filterMap_map]
  refine List.filterMap_congr ?_
  intro p hp
  simp only [Function.comp_apply, eventOfBlock,
    parseSseEvent_dataLine decode (h p hp)]

/-- Claim C5: in a stream where one block's data payload fails JSON
decoding while the surrounding blocks are well-formed (they decode to
truthy events), the malformed block alone is dropped and every
well-formed block yields its decoded event, in original relative order
— in particular one malformed event among three yields exactly the two
good events, in order. -/
theorem sse_fault_isolation (decode : List Char → Option Json)
    (pre post : List (List Char)) (bad : List Char)
    (hpre_nl : ∀ p ∈ pre, '\n' ∉ p) (hbad_nl : '\n' ∉ bad)
    (hpost_nl : ∀ p ∈ post, '\n' ∉ p)
    (hbad : decode (pyStrip bad) = none)
    (hpre : ∀ p ∈ pre, ∃ e, decode (pyStrip p) = some e ∧ e.truthy = true)
    (hpost : ∀ p ∈ post, ∃ e, decode (pyStrip p) = some e ∧ e.truthy = true) :
    parseSseStream decode [mkStream (pre ++ bad :: post)]
      = pre.filterMap (fun p => decode (pyStrip p))
        ++ post.filterMap (fun p => decode (pyStrip p)) := by
  have hall : ∀ p ∈ pre ++ bad :: post, '\n' ∉ p := by
    intro p hp
    rcases List.mem_append.mp hp with h | h
    · exact hpre_nl p h
    · rcases List.mem_cons.mp h with rfl | h
      · exact hbad_nl
      · exact hpost_nl p h
  rw [sse_events_of_payloads decode _ hall]
  simp only [List.filterMap_append, List.filterMap_cons, hbad]
  congr 1
  · refine List.filterMap_congr ?_
    intro p hp
    obtain ⟨e, he, ht⟩ := hpre p hp
    rw [he]
    simp [ht]
  · refine List.filterMap_congr ?_
    intro p hp
    obtain ⟨e, he, ht⟩ := hpost p hp
    rw [he]
    simp [ht]

/-- Witness for C5: three single-line events, the middle payload
malformed, decode to exactly the two good events in order. -/
theorem sse_fault_isolation_witness :
    parseSseStream
        (fun l => if l = ['1'] then some (.num 1)
          else if l = ['2'] then some (.num 2) else none)
        [mkStream [['1'], ['x'], ['2']]]
      = [Json.num 1, Json.num 2] :=
  (sse_fault_isolation
      (fun l => if l = ['1'] then some (.num 1)
        else if l = ['2'] then some (.num 2) else none)
      [['1']] [['2']] ['x']
      (by intro p hp; simp at hp; subst hp; decide)
      (by decide)
      (by intro p hp; simp at hp; subst hp; decide)
      rfl
      (by intro p hp; simp at hp; subst hp; exact ⟨Json.num 1, rfl, rfl⟩)
      (by intro p hp; simp at hp; subst hp;
          exact ⟨Json.num 2, rfl, rfl⟩)).trans rfl

/-! ## Reconciler lemmas -/

theorem chunkMessage_nil (size : Nat) : chunkMessage size [] = [] := by
  cases size with
  | zero => rfl
  | succ n =>
    unfold chunkMessage
    rw [show (([] : List Char).length + (n + 1) - 1) / (n + 1) = 0
      from Nat.div_eq_of_lt (by simp)]
    rfl

theorem chunkMessage_small {size : Nat} (hs : 0 < size) {text : List Char}
    (hlen : text.length ≤ size) :
    chunkMessage size text = if text = [] then [] else [text] := by
  by_cases ht : text = []
  · simp [ht, chunkMessage_nil]
  · have hlen1 : 0 < text.length := List.length_pos.mpr ht
    have hk : (text.length + size - 1) / size = 1 := by
      rw [show text.length + size - 1 = (text.length - 1) + size by omega,
        Nat.add_div_right _ hs, Nat.div_eq_of_lt (by omega)]
    unfold chunkMessage
    rw [hk, if_neg ht,
      show List.range' 0 1 size = [0] from rfl]
    simp [List.take_of_length_le hlen]

theorem chunkMessage_length {size : Nat} (hs : 0 < size) (text : List Char) :
    (chunkMessage size text).length = (text.length + size - 1) / size := by
  simp [chunkMessage]

theorem chunkMessage_length_mono {size : Nat} (hs : 0 < size)
    {t1 t2 : List Char} (h : t1.length ≤ t2.length) :
    (chunkMessage size t1).length ≤ (chunkMessage size t2).length := by
  rw [chunkMessage_length hs, chunkMessage_length hs]
  exact Nat.div_le_div_right (by omega)

theorem chunkMessage_mem_length {size : Nat} (hs : 0 < size)
    {text c : List Char} (hc : c ∈ chunkMessage size text) :
    c.length ≤ size := by
  simp only [chunkMessage, List.mem_map] at hc
  obtain ⟨i, _, rfl⟩ := hc
  simp only [List.length_take]
  omega

/-- No chunk is empty, so the `if not content: continue` guard of the
send loop never fires. -/
theorem chunkMessage_ne_nil_mem {size : Nat} (hs : 0 < size)
    {text c : List Char} (hc : c ∈ chunkMessage size text) :
    c ≠ [] := by
  simp only [chunkMessage, List.mem_map] at hc
  obtain ⟨i, hi, rfl⟩ := hc
  rw [List.mem_range'] at hi
  obtain ⟨j, hj, rfl⟩ := hi
  have hlen1 : 0 < text.length := by
    by_contra hx
    have h0 : text.length = 0 := by omega
    rw [h0, show (0 + size - 1) / size = 0 from Nat.div_eq_of_lt (by omega)]
      at hj
    omega
  have h2 : (j + 1) * size ≤ text.length + size - 1 :=
    (Nat.le_div_iff_mul_le hs).mp hj
  have h2' : j * size + size ≤ text.length + size - 1 := by
    rw [Nat.succ_mul] at h2
    exact h2
  have h4 : j * size < text.length := by omega
  have h3 : size * j < text.length := by
    rw [Nat.mul_comm]
    exact h4
  refine List.length_pos.mp ?_
  simp only [List.length_take, List.length_drop]
  omega

theorem chunkMessage_getD_length {size : Nat} (hs : 0 < size)
    (text : List Char) (i : Nat) :
    ((chunkMessage size text).getD i []).length ≤ size := by
  rcases lt_or_le i (chunkMessage size text).length with hlt | hge
  · rw [List.getD_eq_get _ _ hlt]
    exact chunkMessage_mem_length hs (List.get_mem ..)
  · rw [List.getD_eq_default _ _ hge]
    simp

theorem updateTelegramMessages_full (size : Nat) (st : RState) :
    (updateTelegramMessages size st).full = st.full := rfl

theorem sendNewChunks_length (chunks sent : List (List Char)) :
    (sendNewChunks chunks sent).length = max sent.length chunks.length := by
  simp only [sendNewChunks, List.length_append, List.length_drop]
  omega

theorem editLast_length (chunks sent : List (List Char)) :
    (editLast chunks sent).length = sent.length := by
  cases sent with
  | nil => rfl
  | cons a rest => simp [editLast]

theorem updateTelegramMessages_sent_length (size : Nat) (st : RState) :
    (updateTelegramMessages size st).sent.length
      = max st.sent.length (chunkMessage size st.full).length := by
  simp [updateTelegramMessages, editLast_length, sendNewChunks_length]

theorem updateTelegramMessages_mem {size : Nat} (hs : 0 < size)
    {st : RState} (h2 : ∀ m ∈ st.sent, m.length ≤ size) :
    ∀ m ∈ (updateTelegramMessages size st).sent, m.length ≤ size := by
  intro m hm
  simp only [updateTelegramMessages] at hm
  rcases hmem : sendNewChunks (chunkMessage size st.full) st.sent with _ | ⟨a, rest⟩
  · rw [hmem] at hm
    simp [editLast] at hm
  · rw [hmem] at hm
    have hm' : m ∈ (a :: rest).set ((a :: rest).length - 1)
        ((chunkMessage size st.full).getD ((a :: rest).length - 1) []) := by
      simpa [editLast] using hm
    rcases List.mem_or_eq_of_mem_set hm' with hin | rfl
    · rw [← hmem] at hin
      simp only [sendNewChunks, List.mem_append] at hin
      rcases hin with hold | hnew
      · exact h2 m hold
      · exact chunkMessage_mem_length hs (List.mem_of_mem_drop hnew)
    · exact chunkMessage_getD_length hs ..

/-- Across a turn, `full_response` accumulates exactly the concatenation
of the deltas, whether or not individual flushes fire. -/
theorem runTurn_foldl_full (size : Nat) :
    ∀ (deltas : List (List Char × Bool)) (st : RState),
      (deltas.foldl (fun s d => onToken size s d.1 d.2) st).full
        = st.full ++ (deltas.map Prod.fst).flatten := by
  intro deltas
  induction deltas with
  | nil => intro st; simp
  | cons d rest ih =>
    intro st
    have hstep : (onToken size st d.1 d.2).full = st.full ++ d.1 := by
      unfold onToken
      by_cases hfl : d.2 <;> simp [hfl, updateTelegramMessages_full]
    simp only [List.foldl_cons, ih, hstep, List.map_cons, List.flatten_cons,
      List.append_assoc]

/-- Fold invariant: the number of handles never exceeds the chunk count
of the accumulated text, and every displayed text fits the chunk size. -/
theorem runTurn_foldl_inv {size : Nat} (hs : 0 < size) :
    ∀ (deltas : List (List Char × Bool)) (st : RState),
      st.sent.length ≤ (chunkMessage size st.full).length →
      (∀ m ∈ st.sent, m.length ≤ size) →
      (deltas.foldl (fun s d => onToken size s d.1 d.2) st).sent.length
          ≤ (chunkMessage size
              (deltas.foldl (fun s d => onToken size s d.1 d.2) st).full).length ∧
        ∀ m ∈ (deltas.foldl (fun s d => onToken size s d.1 d.2) st).sent,
          m.length ≤ size := by
  intro deltas
  induction deltas with
  | nil => intro st h1 h2; exact ⟨h1, h2⟩
  | cons d rest ih =>
    intro st h1 h2
    simp only [List.foldl_cons]
    refine ih (onToken size st d.1 d.2) ?_ ?_
    · unfold onToken
      by_cases hfl : d.2
      · simp only [hfl, if_pos]
        rw [updateTelegramMessages_sent_length, updateTelegramMessages_full]
        have hmono : (chunkMessage size st.full).length
            ≤ (chunkMessage size (st.full ++ d.1)).length :=
          chunkMessage_length_mono hs (by simp)
        simp only [max_le_iff]
        exact ⟨le_trans h1 hmono, le_refl _⟩
      · simp only [hfl, if_neg, Bool.false_eq_true, not_false_iff]
        exact le_trans h1 (chunkMessage_length_mono hs (by simp))
    · unfold onToken
      by_cases hfl : d.2
      · simp only [hfl, if_pos]
        exact updateTelegramMessages_mem hs h2
      · simpa [hfl] using h2

/-- Claim C6: over any delta sequence (with any rate-limit outcomes)
whose concatenation is the final text of length `L`, the total number of
distinct sends — recorded handles only ever accumulate — never exceeds
`⌈L / size⌉ = (L + size - 1) / size`, and every text handed to a send or
edit is at most `size` characters. -/
theorem reconciler_send_bound (size : Nat) (hs : 0 < size)
    (deltas : List (List Char × Bool)) (finalText : List Char)
    (hfin : finalText = (deltas.map Prod.fst).flatten) :
    (runTurn size deltas finalText).sent.length
        ≤ (finalText.length + size - 1) / size ∧
    ∀ m ∈ (runTurn size deltas finalText).sent, m.length ≤ size := by
  have hfull := runTurn_foldl_full size deltas ⟨[], []⟩
  have hinv := runTurn_foldl_inv hs deltas ⟨[], []⟩ (by simp) (by simp)
  set st := deltas.foldl (fun s d => onToken size s d.1 d.2) ⟨[], []⟩ with hst
  have hfin' : finalText = st.full := by
    rw [hfull, hfin]
    simp
  have hstate : { st with full := finalText } = st := by
    rw [hfin']
  have hrt : runTurn size deltas finalText
      = updateTelegramMessages size { full := finalText, sent := st.sent } :=
    rfl
  rw [hrt, hstate]
  constructor
  · rw [updateTelegramMessages_sent_length, chunkMessage_length hs, ← hfin']
    simp only [max_le_iff]
    constructor
    · rw [hfin'] at *
      calc st.sent.length ≤ (chunkMessage size st.full).length := hinv.1
        _ = (st.full.length + size - 1) / size := chunkMessage_length hs _
    · exact le_refl _
  · exact updateTelegramMessages_mem hs hinv.2

/-- Witness for C6 at a concrete input: three characters at chunk size
two give two sends, each within bounds. -/
theorem reconciler_send_bound_witness :
    (runTurn 2 [(['a', 'b', 'c'], true)] ['a', 'b', 'c']).sent.length
        ≤ (['a', 'b', 'c'].length + 2 - 1) / 2 ∧
    ∀ m ∈ (runTurn 2 [(['a', 'b', 'c'], true)] ['a', 'b', 'c']).sent,
      m.length ≤ 2 :=
  reconciler_send_bound 2 (by decide) [(['a', 'b', 'c'], true)]
    ['a', 'b', 'c'] rfl

/-- A flush while the whole accumulated text fits one chunk rewrites the
single handle (creating it if needed) to show exactly `full_response`. -/
theorem updateTelegramMessages_small {size : Nat} (hs : 0 < size)
    (st : RState) (hlen : st.full.length ≤ size)
    (hinv : st.sent = [] ∨ ∃ p, p ≠ [] ∧ st.sent = [p])
    (hne : st.sent ≠ [] → st.full ≠ []) :
    (updateTelegramMessages size st).sent
      = if st.full = [] then [] else [st.full] := by
  by_cases hf : st.full = []
  · have hsent : st.sent = [] := by
      by_contra hx
      exact hne hx hf
    simp [updateTelegramMessages, hf, hsent, chunkMessage_nil, sendNewChunks,
      editLast]
  · have hchunks : chunkMessage size st.full = [st.full] := by
      rw [chunkMessage_small hs hlen, if_neg hf]
    rcases hinv with hsent | ⟨p, _hp, hsent⟩
    · simp [updateTelegramMessages, hchunks, hsent, sendNewChunks, editLast, hf]
    · simp [updateTelegramMessages, hchunks, hsent, sendNewChunks, editLast, hf]

/-- Fold invariant in the single-chunk regime: at most one handle ever
exists and it exists only once some text has accumulated. -/
theorem runTurn_foldl_small {size : Nat} (hs : 0 < size) :
    ∀ (deltas : List (List Char × Bool)) (st : RState),
      (st.full ++ (deltas.map Prod.fst).flatten).length ≤ size →
      (st.sent = [] ∨ ∃ p, p ≠ [] ∧ st.sent = [p]) →
      (st.sent ≠ [] → st.full ≠ []) →
      ((deltas.foldl (fun s d => onToken size s d.1 d.2) st).sent = []
          ∨ ∃ p, p ≠ [] ∧
            (deltas.foldl (fun s d => onToken size s d.1 d.2) st).sent = [p]) ∧
        ((deltas.foldl (fun s d => onToken size s d.1 d.2) st).sent ≠ [] →
          (deltas.foldl (fun s d => onToken size s d.1 d.2) st).full ≠ []) := by
  intro deltas
  induction deltas with
  | nil => intro st _ hinv hne; exact ⟨hinv, hne⟩
  | cons d rest ih =>
    intro st hlen hinv hne
    simp only [List.foldl_cons]
    have hfull : (onToken size st d.1 d.2).full = st.full ++ d.1 := by
      unfold onToken
      by_cases hfl : d.2 <;> simp [hfl, updateTelegramMessages_full]
    have hlen1 : ((onToken size st d.1 d.2).full
        ++ (rest.map Prod.fst).flatten).length ≤ size := by
      rw [hfull]
      simp only [List.map_cons, List.flatten_cons, List.length_append] at hlen ⊢
      omega
    have hlenst1 : (st.full ++ d.1).length ≤ size := by
      rw [hfull] at hlen1
      simp only [List.length_append] at hlen1 ⊢
      omega
    refine ih (onToken size st d.1 d.2) hlen1 ?_ ?_
    · unfold onToken
      by_cases hfl : d.2
      · simp only [hfl, if_pos]
        rw [updateTelegramMessages_small hs { st with full := st.full ++ d.1 }
          hlenst1 hinv (fun hx => List.append_ne_nil_of_left_ne_nil ?_ _)]
        · by_cases hfull : st.full ++ d.1 = [] <;> simp [hfull]
        · exact hne hx
      · simp only [hfl, if_neg, Bool.false_eq_true, not_false_iff]
        exact hinv
    · unfold onToken
      by_cases hfl : d.2
      · simp only [hfl, if_pos]
        intro hx
        rw [updateTelegramMessages_small hs { st with full := st.full ++ d.1 }
          hlenst1 hinv (fun hy => List.append_ne_nil_of_left_ne_nil (hne hy) _)] at hx
        rw [updateTelegramMessages_full]
        by_cases hfull : st.full ++ d.1 = []
        · rw [if_pos hfull] at hx
          exact absurd rfl hx
        · exact hfull
      · simp only [hfl, if_neg, Bool.false_eq_true, not_false_iff]
        intro hx
        exact List.append_ne_nil_of_left_ne_nil (hne hx) _

/-- Claim C1 (amended): whenever the final text fits within a single
platform chunk (`finalText.length ≤ size`), after the forced
unconditional final flush the concatenation of all displayed contents
equals the final `fullText` exactly, whatever the rate-limit outcomes —
also when the last delta arrived inside a suppressed interval; for
longer texts only the last message is re-edited, so an earlier message
sent while its chunk was still partial can retain stale content (see
the counterexample). -/
theorem reconciler_finality_single_chunk (size : Nat) (hs : 0 < size)
    (deltas : List (List Char × Bool)) (finalText : List Char)
    (hfin : finalText = (deltas.map Prod.fst).flatten)
    (hlen : finalText.length ≤ size) :
    ((runTurn size deltas finalText).sent).flatten = finalText := by
  have hfull := runTurn_foldl_full size deltas ⟨[], []⟩
  have hinv := runTurn_foldl_small hs deltas ⟨[], []⟩
    (by
      have hflat : (deltas.map Prod.fst).flatten.length ≤ size := by
        rw [← hfin]
        exact hlen
      simpa using hflat)
    (Or.inl rfl) (fun hx => absurd rfl hx)
  set st := deltas.foldl (fun s d => onToken size s d.1 d.2) ⟨[], []⟩ with hst
  have hfin' : finalText = st.full := by
    rw [hfull, hfin]
    simp
  have hstate : { st with full := finalText } = st := by rw [hfin']
  have hrt : runTurn size deltas finalText
      = updateTelegramMessages size { full := finalText, sent := st.sent } :=
    rfl
  rw [hrt, hstate,
    updateTelegramMessages_small hs st (hfin' ▸ hlen) hinv.1 hinv.2]
  by_cases hf : st.full = []
  · simp [hf, hfin', hf]
  · simp [hf, hfin']

/-- Witness for the amended C1 at a concrete input, with the second
delta suppressed by the rate limit and delivered only by the forced
final flush. -/
theorem reconciler_finality_single_chunk_witness :
    ((runTurn 2 [(['a'], true), (['b'], false)] ['a', 'b']).sent).flatten
      = ['a', 'b'] :=
  reconciler_finality_single_chunk 2 (by decide)
    [(['a'], true), (['b'], false)] ['a', 'b'] rfl (by decide)

/-- Claim C1 (counterexample): at chunk size 2, flushes at `"a"` and
then at `"abc"` leave the first message showing `"a"` forever — the send
loop creates the second message and the trailing edit touches only the
last handle — so after the forced final flush the display reads
`"ac"`, not the final `fullText` `"abc"`, although the final text is
exactly the concatenation of the deltas. -/
theorem reconciler_finality_cex :
    ['a', 'b', 'c']
        = (([(['a'], true), (['b', 'c'], true)]).map Prod.fst).flatten ∧
    (runTurn 2 [(['a'], true), (['b', 'c'], true)] ['a', 'b', 'c']).sent
        = [['a'], ['c']] ∧
    ((runTurn 2 [(['a'], true), (['b', 'c'], true)] ['a', 'b', 'c']).sent).flatten
        ≠ ['a', 'b', 'c'] := by
  refine ⟨rfl, rfl, ?_⟩
  decide

end Linkos
